import Mathlib

/-!
Verification of the qproject repository (workspace preparation, workflow
supervision, ownership-validated delivery, daemonization).

The filesystem trees handled by `projects.copytree_owner` and
`utils.copytree_owner` are modelled as rose trees (`Entry`/`Forest`).  Both
Python functions traverse the source with `os.fwalk(src)` (top-down), check
the owner of every opened handle with `os.fstat`, copy file bytes, and
create destination directories with `os.mkdir`.  A symbolic link is opened
by `os.open(..., dir_fd=rootfd)` without `O_NOFOLLOW`, so the handle that is
checked and copied is the link *target*: a `symlink` node therefore carries
the target's owner uid and the target's bytes, which is exactly what
`fstat`/`copyfileobj` observe.  Sibling names produced by a real `fwalk`
listing are distinct, so `os.mkdir` never hits an already existing
destination entry; the model relies on that (it never models
`FileExistsError` for sibling duplicates).
-/

namespace QProject

mutual

/-- A filesystem entry as observed by `os.fwalk`: a regular file (owner uid
and bytes), a symbolic link (owner uid and bytes *of the target*, as seen
through the opened handle), or a directory. -/
inductive Entry where
  | file (uid : Nat) (content : List Nat)
  | symlink (uid : Nat) (content : List Nat)
  | dir (uid : Nat) (children : Forest)

/-- The named children of a directory, in the order `os.fwalk` enumerates
them. -/
inductive Forest where
  | nil
  | cons (name : String) (e : Entry) (rest : Forest)

end

/-- Build a `Forest` from a list of named entries. -/
def forestOf : List (String × Entry) → Forest
  | [] => .nil
  | (n, e) :: rest => .cons n e (forestOf rest)

/-- A path relative to the destination root, one component per directory
level. -/
abbrev Fpath := List String

/-- A destination-side filesystem effect of a copy: `os.mkdir` of a
directory or a full write of a file's bytes. -/
inductive FsOp where
  | mkdir (p : Fpath)
  | write (p : Fpath) (content : List Nat)
deriving Repr, DecidableEq

/-! ## projects.copytree_owner (the Abort policy, projects.py lines 162-196)

For every visited directory `root` the code raises `ValueError` if
`root != src` and `os.fstat(rootfd).st_uid != userid`; then for every file
it opens the file relative to `rootfd`, raises `ValueError` if the handle's
owner is not `userid` and otherwise streams the bytes to the destination;
then it runs `os.mkdir` for every subdirectory; `fwalk` then descends into
the subdirectories in order.  An exception aborts the whole call, keeping
every destination effect already performed. -/

/-- The files loop of `projects.copytree_owner` for one visited directory:
copy each file/symlink child in order, stopping with an error at the first
child whose opened handle is not owned by `u`. -/
def abortFiles (u : Nat) (p : Fpath) : Forest → List FsOp × Bool
  | .nil => ([], false)
  | .cons n (.file fu c) rest =>
      if fu = u then
        let r := abortFiles u p rest
        (FsOp.write (p ++ [n]) c :: r.1, r.2)
      else ([], true)
  | .cons n (.symlink su c) rest =>
      if su = u then
        let r := abortFiles u p rest
        (FsOp.write (p ++ [n]) c :: r.1, r.2)
      else ([], true)
  | .cons _ (.dir _ _) rest => abortFiles u p rest

/-- The dirs loop of both copy variants: `os.mkdir` for every directory
child of the visited directory. -/
def mkdirOps (p : Fpath) : Forest → List FsOp
  | .nil => []
  | .cons n (.dir _ _) rest => FsOp.mkdir (p ++ [n]) :: mkdirOps p rest
  | .cons _ _ rest => mkdirOps p rest

mutual

/-- One `fwalk` visit of `projects.copytree_owner` at a non-root entry:
only directories are visited; the owner check happens first, then the
files loop, the mkdir loop, and the descent. -/
def abortEntry (u : Nat) (p : Fpath) (n : String) : Entry → List FsOp × Bool
  | .file _ _ => ([], false)
  | .symlink _ _ => ([], false)
  | .dir du cs =>
      if du = u then
        let r1 := abortFiles u (p ++ [n]) cs
        if r1.2 then (r1.1, true)
        else
          let r2 := abortDescend u (p ++ [n]) cs
          (r1.1 ++ mkdirOps (p ++ [n]) cs ++ r2.1, r2.2)
      else ([], true)

/-- The depth-first descent of `fwalk` into the directory children, in
order, stopping at the first raised exception. -/
def abortDescend (u : Nat) (p : Fpath) : Forest → List FsOp × Bool
  | .nil => ([], false)
  | .cons n e rest =>
      let r1 := abortEntry u p n e
      if r1.2 then (r1.1, true)
      else
        let r2 := abortDescend u p rest
        (r1.1 ++ r2.1, r2.2)

end

/-- `projects.copytree_owner src dest userid` on a source tree whose root
has children `cs`: the destination effects performed, and whether a
`ValueError` was raised.  The root directory itself is exempt from the
owner check (`root != src`). -/
def abortCopytree (u : Nat) (cs : Forest) : List FsOp × Bool :=
  let r1 := abortFiles u [] cs
  if r1.2 then (r1.1, true)
  else
    let r2 := abortDescend u [] cs
    (r1.1 ++ mkdirOps [] cs ++ r2.1, r2.2)

/-! ## Ownership predicates -/

mutual

/-- Every handle in the entry (the entry itself and, for a directory, all
of its descendants) is owned by `u`. -/
def allOwned (u : Nat) : Entry → Bool
  | .file fu _ => fu = u
  | .symlink su _ => su = u
  | .dir du cs => (du = u) && allOwnedF u cs

/-- Every handle in the forest is owned by `u`. -/
def allOwnedF (u : Nat) : Forest → Bool
  | .nil => true
  | .cons _ e rest => allOwned u e && allOwnedF u rest

end

/-- Every file/symlink child (the entries the files loop opens) is owned by
`u`; directory children are not constrained. -/
def filesOwned (u : Nat) : Forest → Bool
  | .nil => true
  | .cons _ (.file fu _) rest => (fu = u) && filesOwned u rest
  | .cons _ (.symlink su _) rest => (su = u) && filesOwned u rest
  | .cons _ (.dir _ _) rest => filesOwned u rest

/-- Every directory child is owned by `u` and recursively all-owned;
file/symlink children are not constrained. -/
def dirsDeepOwned (u : Nat) : Forest → Bool
  | .nil => true
  | .cons _ (.dir du cs) rest => ((du = u) && allOwnedF u cs) && dirsDeepOwned u rest
  | .cons _ _ rest => dirsDeepOwned u rest

theorem allOwnedF_iff (u : Nat) (cs : Forest) :
    allOwnedF u cs = true ↔ (filesOwned u cs = true ∧ dirsDeepOwned u cs = true) := by
  cases cs with
  | nil => simp [allOwnedF, filesOwned, dirsDeepOwned]
  | cons n e rest =>
    have ih := allOwnedF_iff u rest
    cases e with
    | file fu c =>
      simp [allOwnedF, filesOwned, dirsDeepOwned, allOwned, ih]
      tauto
    | symlink su c =>
      simp [allOwnedF, filesOwned, dirsDeepOwned, allOwned, ih]
      tauto
    | dir du cs' =>
      simp [allOwnedF, filesOwned, dirsDeepOwned, allOwned, ih]
      tauto

/-! ## The effects of a fully owned copy -/

/-- The writes the files loop performs when no child is rejected: every
file/symlink child in order. -/
def fullFiles (p : Fpath) : Forest → List FsOp
  | .nil => []
  | .cons n (.file _ c) rest => FsOp.write (p ++ [n]) c :: fullFiles p rest
  | .cons n (.symlink _ c) rest => FsOp.write (p ++ [n]) c :: fullFiles p rest
  | .cons _ (.dir _ _) rest => fullFiles p rest

mutual

/-- All destination effects of copying one entry (and its subtree) when
nothing is rejected. -/
def fullEntry (p : Fpath) (n : String) : Entry → List FsOp
  | .file _ _ => []
  | .symlink _ _ => []
  | .dir _ cs =>
      fullFiles (p ++ [n]) cs ++ mkdirOps (p ++ [n]) cs ++ fullDescend (p ++ [n]) cs

/-- All destination effects of descending a forest when nothing is
rejected. -/
def fullDescend (p : Fpath) : Forest → List FsOp
  | .nil => []
  | .cons n e rest => fullEntry p n e ++ fullDescend p rest

end

/-- All destination effects of copying the whole tree: every file written
and every directory created. -/
def fullCopy (cs : Forest) : List FsOp :=
  fullFiles [] cs ++ mkdirOps [] cs ++ fullDescend [] cs

theorem abortFiles_all (u : Nat) (p : Fpath) (cs : Forest)
    (h : filesOwned u cs = true) : abortFiles u p cs = (fullFiles p cs, false) := by
  cases cs with
  | nil => simp [abortFiles, fullFiles]
  | cons n e rest =>
    cases e with
    | file fu c =>
      simp only [filesOwned, Bool.and_eq_true, decide_eq_true_eq] at h
      have ih := abortFiles_all u p rest h.2
      simp [abortFiles, fullFiles, h.1, ih]
    | symlink su c =>
      simp only [filesOwned, Bool.and_eq_true, decide_eq_true_eq] at h
      have ih := abortFiles_all u p rest h.2
      simp [abortFiles, fullFiles, h.1, ih]
    | dir du cs' =>
      simp only [filesOwned] at h
      have ih := abortFiles_all u p rest h
      simp [abortFiles, fullFiles, ih]

mutual

theorem abortEntry_all (u : Nat) (p : Fpath) (n : String) (e : Entry)
    (h : allOwned u e = true) : abortEntry u p n e = (fullEntry p n e, false) := by
  cases e with
  | file fu c => simp [abortEntry, fullEntry]
  | symlink su c => simp [abortEntry, fullEntry]
  | dir du cs =>
    simp only [allOwned, Bool.and_eq_true, decide_eq_true_eq] at h
    have hfd := (allOwnedF_iff u cs).1 h.2
    have h1 := abortFiles_all u (p ++ [n]) cs hfd.1
    have h2 := abortDescend_all u (p ++ [n]) cs h.2
    simp [abortEntry, fullEntry, h.1, h1, h2]

theorem abortDescend_all (u : Nat) (p : Fpath) (cs : Forest)
    (h : allOwnedF u cs = true) : abortDescend u p cs = (fullDescend p cs, false) := by
  cases cs with
  | nil => simp [abortDescend, fullDescend]
  | cons n e rest =>
    simp only [allOwnedF, Bool.and_eq_true] at h
    have h1 := abortEntry_all u p n e h.1
    have h2 := abortDescend_all u p rest h.2
    simp [abortDescend, fullDescend, h1, h2]

end

theorem abortFiles_conv (u : Nat) (p : Fpath) (cs : Forest)
    (h : (abortFiles u p cs).2 = false) : filesOwned u cs = true := by
  cases cs with
  | nil => simp [filesOwned]
  | cons n e rest =>
    cases e with
    | file fu c =>
      by_cases hfu : fu = u
      · simp only [abortFiles, hfu, if_pos rfl] at h
        have := abortFiles_conv u p rest h
        simp [filesOwned, hfu, this]
      · simp [abortFiles, hfu] at h
    | symlink su c =>
      by_cases hsu : su = u
      · simp only [abortFiles, hsu, if_pos rfl] at h
        have := abortFiles_conv u p rest h
        simp [filesOwned, hsu, this]
      · simp [abortFiles, hsu] at h
    | dir du cs' =>
      simp only [abortFiles] at h
      have := abortFiles_conv u p rest h
      simp [filesOwned, this]

mutual

theorem abortEntry_conv (u : Nat) (p : Fpath) (n : String) (e : Entry)
    (h : (abortEntry u p n e).2 = false) :
    (match e with
     | .dir du cs => ((du = u) && allOwnedF u cs) = true
     | _ => True) := by
  cases e with
  | file fu c => trivial
  | symlink su c => trivial
  | dir du cs =>
    by_cases hdu : du = u
    · simp only [abortEntry, hdu, if_pos rfl] at h
      by_cases h1 : (abortFiles u (p ++ [n]) cs).2
      · simp [h1] at h
      · simp only [Bool.not_eq_true] at h1
        simp only [h1, Bool.false_eq_true, if_false] at h
        have hf := abortFiles_conv u (p ++ [n]) cs h1
        have hd := abortDescend_conv u (p ++ [n]) cs h
        simp [hdu, (allOwnedF_iff u cs).2 ⟨hf, hd⟩]
    · simp [abortEntry, hdu] at h

theorem abortDescend_conv (u : Nat) (p : Fpath) (cs : Forest)
    (h : (abortDescend u p cs).2 = false) : dirsDeepOwned u cs = true := by
  cases cs with
  | nil => simp [dirsDeepOwned]
  | cons n e rest =>
    by_cases h1 : (abortEntry u p n e).2
    · simp [abortDescend, h1] at h
    · simp only [Bool.not_eq_true] at h1
      simp only [abortDescend, h1, Bool.false_eq_true, if_false] at h
      have he := abortEntry_conv u p n e h1
      have hr := abortDescend_conv u p rest h
      cases e with
      | file fu c => simp [dirsDeepOwned, hr]
      | symlink su c => simp [dirsDeepOwned, hr]
      | dir du cs' => simp only [dirsDeepOwned, he, hr, Bool.and_self]

end

/-! ## Claim C1 -/

/-- A source tree whose first enumerated file is owned by uid 5 and whose
second is owned by uid 4: `fwalk` order makes the first file reach the
destination before the mismatch is discovered. -/
def c1Tree : Forest :=
  forestOf [("ok", .file 5 [1]), ("bad", .file 4 [2])]

/-- Claim C1 as stated is false: on `c1Tree` with expected owner 5,
`projects.copytree_owner` raises the ownership `ValueError` (second
conjunct) but the destination is not left empty — the file `ok` has
already been written (first and third conjuncts), so a partial copy
remains in `dest` on failure. -/
theorem abortCopy_partial_on_mismatch :
    (abortCopytree 5 c1Tree).2 = true ∧
    (abortCopytree 5 c1Tree).1 = [FsOp.write ["ok"] [1]] ∧
    (abortCopytree 5 c1Tree).1 ≠ [] := by
  refine ⟨by decide, by decide, by decide⟩

/-- Claim C1, amended: `projects.copytree_owner` copies every entry and
raises nothing when every directory and file handle in the tree is owned
by `u`, and conversely whenever it returns without raising the whole tree
was owned by `u` — so a mismatch anywhere always raises — but on a
mismatch the entries already processed remain in the destination (the
copy is not rolled back), as `abortCopy_partial_on_mismatch` shows. -/
theorem abortCopy_total_or_error (u : Nat) (cs : Forest) :
    (allOwnedF u cs = true → abortCopytree u cs = (fullCopy cs, false)) ∧
    ((abortCopytree u cs).2 = false → allOwnedF u cs = true) := by
  constructor
  · intro h
    have hfd := (allOwnedF_iff u cs).1 h
    have h1 := abortFiles_all u [] cs hfd.1
    have h2 := abortDescend_all u [] cs h
    simp [abortCopytree, fullCopy, h1, h2]
  · intro h
    by_cases h1 : (abortFiles u [] cs).2
    · simp [abortCopytree, h1] at h
    · simp only [Bool.not_eq_true] at h1
      simp only [abortCopytree, h1, Bool.false_eq_true, if_false] at h
      exact (allOwnedF_iff u cs).2 ⟨abortFiles_conv u [] cs h1, abortDescend_conv u [] cs h⟩

/-- A fully owned tree used to witness `abortCopy_total_or_error`. -/
def c1OkTree : Forest :=
  forestOf [("a", .file 5 [1]), ("d", .dir 5 (forestOf [("b", .file 5 [2])]))]

/-- Witness for the amended claim C1: on a concrete fully owned tree the
Abort-policy copy performs exactly the full copy and raises nothing, and
this run, which returns without raising, is indeed fully owned. -/
theorem abortCopy_total_or_error_witness :
    abortCopytree 5 c1OkTree = (fullCopy c1OkTree, false) ∧
    allOwnedF 5 c1OkTree = true := by
  refine ⟨(abortCopy_total_or_error 5 c1OkTree).1 (by decide),
          (abortCopy_total_or_error 5 c1OkTree).2 (by decide)⟩

/-! ## utils.copytree_owner (the Skip policy, utils.py lines 70-104)

The only differences from the Abort variant are the two `continue`
statements: a visited directory with the wrong owner has its files loop and
mkdir loop skipped (but `fwalk` still descends into its subdirectories,
whose destination directories were never created), and a file with the
wrong owner is skipped individually.  A destination `open(..., 'wb')` or
`os.mkdir` inside a directory that was never created raises an uncaught
`FileNotFoundError`, aborting the whole call.  The accumulated effect list
`acc` doubles as the record of which destination directories exist: a
destination directory exists exactly when its `mkdir` was performed (the
destination root always exists — `commit` creates it beforehand). -/

/-- The files loop of `utils.copytree_owner`: a mismatched file is skipped
(`continue`); an owned file is written, which raises `FileNotFoundError`
when the visited directory's destination (`destOk`) was never created. -/
def skipFiles (u : Nat) (destOk : Bool) (p : Fpath) (acc : List FsOp) :
    Forest → List FsOp × Bool
  | .nil => (acc, false)
  | .cons n (.file fu c) rest =>
      if fu = u then
        if destOk then skipFiles u destOk p (acc ++ [FsOp.write (p ++ [n]) c]) rest
        else (acc, true)
      else skipFiles u destOk p acc rest
  | .cons n (.symlink su c) rest =>
      if su = u then
        if destOk then skipFiles u destOk p (acc ++ [FsOp.write (p ++ [n]) c]) rest
        else (acc, true)
      else skipFiles u destOk p acc rest
  | .cons _ (.dir _ _) rest => skipFiles u destOk p acc rest

/-- The dirs loop of `utils.copytree_owner`: `os.mkdir` for each directory
child, raising `FileNotFoundError` when the visited directory's
destination was never created. -/
def skipMkdirs (destOk : Bool) (p : Fpath) (acc : List FsOp) :
    Forest → List FsOp × Bool
  | .nil => (acc, false)
  | .cons n (.dir _ _) rest =>
      if destOk then skipMkdirs destOk p (acc ++ [FsOp.mkdir (p ++ [n])]) rest
      else (acc, true)
  | .cons _ _ rest => skipMkdirs destOk p acc rest

/-- Whether the destination directory at `p` exists, given the effects
performed so far: it does exactly when its `mkdir` was performed. -/
def dirExists (acc : List FsOp) (p : Fpath) : Bool :=
  decide (FsOp.mkdir p ∈ acc)

mutual

/-- One `fwalk` visit of `utils.copytree_owner` at a non-root entry: a
mismatched directory is `continue`d — no files are copied and no child
directories are created — but the walk still descends into it. -/
def skipEntry (u : Nat) (p : Fpath) (n : String) (acc : List FsOp) :
    Entry → List FsOp × Bool
  | .file _ _ => (acc, false)
  | .symlink _ _ => (acc, false)
  | .dir du cs =>
      if du = u then
        let destOk := dirExists acc (p ++ [n])
        let r1 := skipFiles u destOk (p ++ [n]) acc cs
        if r1.2 then (r1.1, true)
        else
          let r2 := skipMkdirs destOk (p ++ [n]) r1.1 cs
          if r2.2 then (r2.1, true)
          else skipDescend u (p ++ [n]) r2.1 cs
      else skipDescend u (p ++ [n]) acc cs

/-- The depth-first descent of `fwalk` for the Skip variant, stopping only
at an uncaught `FileNotFoundError`. -/
def skipDescend (u : Nat) (p : Fpath) (acc : List FsOp) : Forest → List FsOp × Bool
  | .nil => (acc, false)
  | .cons n e rest =>
      let r1 := skipEntry u p n acc e
      if r1.2 then (r1.1, true)
      else skipDescend u p r1.1 rest

end

/-- `utils.copytree_owner src dest userid` on a source tree whose root has
children `cs`: the destination effects performed, and whether an uncaught
`FileNotFoundError` aborted the call. -/
def skipCopytree (u : Nat) (cs : Forest) : List FsOp × Bool :=
  let r1 := skipFiles u true [] [] cs
  if r1.2 then (r1.1, true)
  else
    let r2 := skipMkdirs true [] r1.1 cs
    if r2.2 then (r2.1, true)
    else skipDescend u [] r2.1 cs

/-! ## Effects of the Skip copy when every directory is owned -/

/-- The writes the Skip files loop performs: exactly the owned
file/symlink children, in order. -/
def skipSpecFiles (u : Nat) (p : Fpath) : Forest → List FsOp
  | .nil => []
  | .cons n (.file fu c) rest =>
      if fu = u then FsOp.write (p ++ [n]) c :: skipSpecFiles u p rest
      else skipSpecFiles u p rest
  | .cons n (.symlink su c) rest =>
      if su = u then FsOp.write (p ++ [n]) c :: skipSpecFiles u p rest
      else skipSpecFiles u p rest
  | .cons _ (.dir _ _) rest => skipSpecFiles u p rest

mutual

/-- All destination effects of the Skip copy for one entry, when every
directory is owned by `u`. -/
def skipSpecEntry (u : Nat) (p : Fpath) (n : String) : Entry → List FsOp
  | .file _ _ => []
  | .symlink _ _ => []
  | .dir _ cs =>
      skipSpecFiles u (p ++ [n]) cs ++ mkdirOps (p ++ [n]) cs ++
        skipSpecDescend u (p ++ [n]) cs

/-- All destination effects of the Skip descent, when every directory is
owned by `u`. -/
def skipSpecDescend (u : Nat) (p : Fpath) : Forest → List FsOp
  | .nil => []
  | .cons n e rest => skipSpecEntry u p n e ++ skipSpecDescend u p rest

end

/-- The full effect of the Skip copy when every directory is owned by `u`:
every directory created, exactly the owned files written. -/
def skipSpecCopy (u : Nat) (cs : Forest) : List FsOp :=
  skipSpecFiles u [] cs ++ mkdirOps [] cs ++ skipSpecDescend u [] cs

mutual

/-- Every directory in the entry (itself included, if it is one) is owned
by `u`; files and symlinks are unconstrained. -/
def dirsOwned (u : Nat) : Entry → Bool
  | .file _ _ => true
  | .symlink _ _ => true
  | .dir du cs => (du = u) && dirsOwnedF u cs

/-- Every directory in the forest is owned by `u`. -/
def dirsOwnedF (u : Nat) : Forest → Bool
  | .nil => true
  | .cons _ e rest => dirsOwned u e && dirsOwnedF u rest

end

/-- `cs` has a directory child named `n`. -/
def isDirChild (cs : Forest) (n : String) : Bool :=
  match cs with
  | .nil => false
  | .cons m (.dir _ _) rest => decide (m = n) || isDirChild rest n
  | .cons _ _ rest => isDirChild rest n

theorem mkdir_mem_mkdirOps (p : Fpath) (cs : Forest) (n : String)
    (h : isDirChild cs n = true) : FsOp.mkdir (p ++ [n]) ∈ mkdirOps p cs := by
  cases cs with
  | nil => simp [isDirChild] at h
  | cons m e rest =>
    cases e with
    | file fu c => exact mkdir_mem_mkdirOps p rest n h
    | symlink su c => exact mkdir_mem_mkdirOps p rest n h
    | dir du cs' =>
      simp only [isDirChild, Bool.or_eq_true, decide_eq_true_eq] at h
      rcases h with h | h
      · simp [mkdirOps, h]
      · simp only [mkdirOps, List.mem_cons]
        exact Or.inr (mkdir_mem_mkdirOps p rest n h)

theorem skipFiles_true (u : Nat) (p : Fpath) (acc : List FsOp) (cs : Forest) :
    skipFiles u true p acc cs = (acc ++ skipSpecFiles u p cs, false) := by
  cases cs with
  | nil => simp [skipFiles, skipSpecFiles]
  | cons n e rest =>
    cases e with
    | file fu c =>
      by_cases hfu : fu = u
      · have := skipFiles_true u p (acc ++ [FsOp.write (p ++ [n]) c]) rest
        simp [skipFiles, skipSpecFiles, hfu, this]
      · have := skipFiles_true u p acc rest
        simp [skipFiles, skipSpecFiles, hfu, this]
    | symlink su c =>
      by_cases hsu : su = u
      · have := skipFiles_true u p (acc ++ [FsOp.write (p ++ [n]) c]) rest
        simp [skipFiles, skipSpecFiles, hsu, this]
      · have := skipFiles_true u p acc rest
        simp [skipFiles, skipSpecFiles, hsu, this]
    | dir du cs' =>
      have := skipFiles_true u p acc rest
      simp [skipFiles, skipSpecFiles, this]

theorem skipMkdirs_true (p : Fpath) (acc : List FsOp) (cs : Forest) :
    skipMkdirs true p acc cs = (acc ++ mkdirOps p cs, false) := by
  cases cs with
  | nil => simp [skipMkdirs, mkdirOps]
  | cons n e rest =>
    cases e with
    | file fu c =>
      have := skipMkdirs_true p acc rest
      simp [skipMkdirs, mkdirOps, this]
    | symlink su c =>
      have := skipMkdirs_true p acc rest
      simp [skipMkdirs, mkdirOps, this]
    | dir du cs' =>
      have := skipMkdirs_true p (acc ++ [FsOp.mkdir (p ++ [n])]) rest
      simp [skipMkdirs, mkdirOps, this]

mutual

theorem skipEntry_spec (u : Nat) (p : Fpath) (n : String) (acc : List FsOp) (e : Entry)
    (h : dirsOwned u e = true)
    (hacc : ∀ du' cs', e = Entry.dir du' cs' → FsOp.mkdir (p ++ [n]) ∈ acc) :
    skipEntry u p n acc e = (acc ++ skipSpecEntry u p n e, false) := by
  cases e with
  | file fu c => simp [skipEntry, skipSpecEntry]
  | symlink su c => simp [skipEntry, skipSpecEntry]
  | dir du cs =>
    simp only [dirsOwned, Bool.and_eq_true, decide_eq_true_eq] at h
    have hmem : FsOp.mkdir (p ++ [n]) ∈ acc := hacc du cs rfl
    have hdo : dirExists acc (p ++ [n]) = true := decide_eq_true hmem
    have h1 := skipFiles_true u (p ++ [n]) acc cs
    have h2 := skipMkdirs_true (p ++ [n]) (acc ++ skipSpecFiles u (p ++ [n]) cs) cs
    have h3 : skipDescend u (p ++ [n])
        ((acc ++ skipSpecFiles u (p ++ [n]) cs) ++ mkdirOps (p ++ [n]) cs) cs =
        (((acc ++ skipSpecFiles u (p ++ [n]) cs) ++ mkdirOps (p ++ [n]) cs) ++
          skipSpecDescend u (p ++ [n]) cs, false) := by
      refine skipDescend_spec u (p ++ [n])
        ((acc ++ skipSpecFiles u (p ++ [n]) cs) ++ mkdirOps (p ++ [n]) cs) cs h.2 ?_
      intro n' hn'
      exact List.mem_append_right _ (mkdir_mem_mkdirOps (p ++ [n]) cs n' hn')
    simp only [List.append_assoc] at h2 h3
    simp [skipEntry, skipSpecEntry, h.1, hdo, h1, h2, h3]

theorem skipDescend_spec (u : Nat) (p : Fpath) (acc : List FsOp) (cs : Forest)
    (h : dirsOwnedF u cs = true)
    (hacc : ∀ n, isDirChild cs n = true → FsOp.mkdir (p ++ [n]) ∈ acc) :
    skipDescend u p acc cs = (acc ++ skipSpecDescend u p cs, false) := by
  cases cs with
  | nil => simp [skipDescend, skipSpecDescend]
  | cons n e rest =>
    simp only [dirsOwnedF, Bool.and_eq_true] at h
    have he : skipEntry u p n acc e = (acc ++ skipSpecEntry u p n e, false) := by
      refine skipEntry_spec u p n acc e h.1 ?_
      intro du' cs' hdc
      refine hacc n ?_
      subst hdc
      simp [isDirChild]
    have hr : skipDescend u p (acc ++ skipSpecEntry u p n e) rest =
        ((acc ++ skipSpecEntry u p n e) ++ skipSpecDescend u p rest, false) := by
      refine skipDescend_spec u p (acc ++ skipSpecEntry u p n e) rest h.2 ?_
      intro n' hn'
      refine List.mem_append_left _ (hacc n' ?_)
      cases e with
      | file fu c => simpa [isDirChild] using hn'
      | symlink su c => simpa [isDirChild] using hn'
      | dir du cs' => simp [isDirChild, hn']
    simp [skipDescend, skipSpecDescend, he, hr]

end

/-! ## Claim C2 -/

/-- A directory owned by uid 4 containing a file owned by uid 5. -/
def c2Tree : Forest :=
  forestOf [("bad", .dir 4 (forestOf [("f", .file 5 [1])]))]

/-- The same shape one level deeper: an owned directory with an owned file
nested below the mismatched directory. -/
def c2CrashTree : Forest :=
  forestOf [("bad", .dir 4 (forestOf [("sub", .dir 5 (forestOf [("f", .file 5 [1])]))]))]

/-- Claim C2 as stated is false.  On `c2Tree` the subtree rooted at the
mismatched directory `bad` is not entirely omitted from the destination:
the parent's dirs loop has already created `dest/bad` before the ownership
of `bad` is ever checked (first two conjuncts).  And on `c2CrashTree` the
walk still descends below the skipped `bad`, reaching the owned directory
`sub` whose destination parent was never created, so the copy aborts with
an uncaught `FileNotFoundError` instead of skipping the subtree (third
conjunct). -/
theorem skipCopy_mismatched_dir_not_omitted :
    FsOp.mkdir ["bad"] ∈ (skipCopytree 5 c2Tree).1 ∧
    skipCopytree 5 c2Tree = ([FsOp.mkdir ["bad"]], false) ∧
    (skipCopytree 5 c2CrashTree).2 = true := by
  refine ⟨by decide, by decide, by decide⟩

/-- Claim C2, amended: when every *directory* of the tree is owned by `u`,
`utils.copytree_owner` copies exactly the owned files (each at its
original relative path, mismatched files omitted individually) and creates
every directory, raising nothing.  When a directory is not owned by `u`
the claim fails: the mismatched directory's own destination directory is
still created by its parent's iteration, and owned content nested below it
makes the copy abort with `FileNotFoundError`, as
`skipCopy_mismatched_dir_not_omitted` shows. -/
theorem skipCopy_exact_when_dirs_owned (u : Nat) (cs : Forest)
    (h : dirsOwnedF u cs = true) :
    skipCopytree u cs = (skipSpecCopy u cs, false) := by
  have h1 := skipFiles_true u [] ([] : List FsOp) cs
  have h2 := skipMkdirs_true ([] : Fpath) (skipSpecFiles u [] cs) cs
  have h3 : skipDescend u [] (skipSpecFiles u [] cs ++ mkdirOps [] cs) cs =
      ((skipSpecFiles u [] cs ++ mkdirOps [] cs) ++ skipSpecDescend u [] cs, false) := by
    refine skipDescend_spec u [] (skipSpecFiles u [] cs ++ mkdirOps [] cs) cs h ?_
    intro n hn
    exact List.mem_append_right _ (mkdir_mem_mkdirOps [] cs n hn)
  simp [skipCopytree, skipSpecCopy, h1, h2, h3]

/-- A tree with owned directories, one owned file and one mismatched file
at each of two levels, used to witness `skipCopy_exact_when_dirs_owned`. -/
def c2OkTree : Forest :=
  forestOf [("good", .file 5 [1]), ("bad", .file 4 [2]),
            ("d", .dir 5 (forestOf [("x", .file 4 [3]), ("y", .file 5 [4])]))]

/-- Witness for the amended claim C2: on a concrete tree whose directories
are all owned, the Skip copy performs exactly the spec effects — here
written out: the owned files `good` and `d/y` and the directory `d`, with
the mismatched `bad` and `d/x` omitted. -/
theorem skipCopy_exact_when_dirs_owned_witness :
    dirsOwnedF 5 c2OkTree = true ∧
    skipCopytree 5 c2OkTree = (skipSpecCopy 5 c2OkTree, false) ∧
    skipSpecCopy 5 c2OkTree =
      [FsOp.write ["good"] [1], FsOp.mkdir ["d"], FsOp.write ["d", "y"] [4]] := by
  refine ⟨by decide, skipCopy_exact_when_dirs_owned 5 c2OkTree (by decide), by decide⟩

/-! ## Claim C3: where the bytes written by either copy come from -/

/-- The owner reported by `os.fstat` on the handle obtained by opening the
entry: for a symbolic link this is the owner of the *target*, because the
`os.open(..., dir_fd=rootfd)` call in both copy variants follows the link.
Directories are not opened by the files loop. -/
def handleUid : Entry → Option Nat
  | .file fu _ => some fu
  | .symlink su _ => some su
  | .dir _ _ => none

/-- `EntryAt cs q e`: the entry `e` occurs at relative path `q` in the
forest `cs`. -/
inductive EntryAt : Forest → Fpath → Entry → Prop where
  | here (n : String) (e : Entry) (rest : Forest) : EntryAt (.cons n e rest) [n] e
  | there (n : String) (e' : Entry) (rest : Forest) (q : Fpath) (e : Entry) :
      EntryAt rest q e → EntryAt (.cons n e' rest) q e
  | down (n : String) (du : Nat) (cs rest : Forest) (q : Fpath) (e : Entry) :
      EntryAt cs q e → EntryAt (.cons n (.dir du cs) rest) (n :: q) e

theorem mkdirOps_no_write (p : Fpath) (cs : Forest) (q : Fpath) (c : List Nat) :
    FsOp.write q c ∉ mkdirOps p cs := by
  cases cs with
  | nil => simp [mkdirOps]
  | cons n e rest =>
    cases e with
    | file fu c' => exact mkdirOps_no_write p rest q c
    | symlink su c' => exact mkdirOps_no_write p rest q c
    | dir du cs' =>
      simp only [mkdirOps, List.mem_cons]
      rintro (h | h)
      · cases h
      · exact mkdirOps_no_write p rest q c h

theorem abortFiles_writes (u : Nat) (p : Fpath) (cs : Forest) (q : Fpath) (c : List Nat)
    (hm : FsOp.write q c ∈ (abortFiles u p cs).1) :
    ∃ n e, q = p ++ [n] ∧ EntryAt cs [n] e ∧ handleUid e = some u := by
  cases cs with
  | nil => simp [abortFiles] at hm
  | cons n e rest =>
    cases e with
    | file fu c' =>
      by_cases hfu : fu = u
      · simp [abortFiles, hfu] at hm
        rcases hm with ⟨hq, hc⟩ | hm
        · exact ⟨n, .file fu c', hq, .here n _ rest, by simp [handleUid, hfu]⟩
        · obtain ⟨n', e', hq, he, hu⟩ := abortFiles_writes u p rest q c hm
          exact ⟨n', e', hq, .there n _ rest [n'] e' he, hu⟩
      · simp [abortFiles, hfu] at hm
    | symlink su c' =>
      by_cases hsu : su = u
      · simp [abortFiles, hsu] at hm
        rcases hm with ⟨hq, hc⟩ | hm
        · exact ⟨n, .symlink su c', hq, .here n _ rest, by simp [handleUid, hsu]⟩
        · obtain ⟨n', e', hq, he, hu⟩ := abortFiles_writes u p rest q c hm
          exact ⟨n', e', hq, .there n _ rest [n'] e' he, hu⟩
      · simp [abortFiles, hsu] at hm
    | dir du cs' =>
      simp only [abortFiles] at hm
      obtain ⟨n', e', hq, he, hu⟩ := abortFiles_writes u p rest q c hm
      exact ⟨n', e', hq, .there n _ rest [n'] e' he, hu⟩

mutual

theorem abortEntry_writes (u : Nat) (p : Fpath) (n : String) (e : Entry)
    (q : Fpath) (c : List Nat) (hm : FsOp.write q c ∈ (abortEntry u p n e).1) :
    ∃ du' cs' r e', e = Entry.dir du' cs' ∧ q = p ++ n :: r ∧
      EntryAt cs' r e' ∧ handleUid e' = some u := by
  cases e with
  | file fu c' => simp [abortEntry] at hm
  | symlink su c' => simp [abortEntry] at hm
  | dir du cs =>
    by_cases hdu : du = u
    · by_cases h1 : (abortFiles u (p ++ [n]) cs).2
      · simp [abortEntry, hdu, h1] at hm
        obtain ⟨n', e', hq, he, hu⟩ := abortFiles_writes u (p ++ [n]) cs q c hm
        exact ⟨du, cs, [n'], e', rfl, by simp [hq], he, hu⟩
      · simp only [Bool.not_eq_true] at h1
        simp [abortEntry, hdu, h1] at hm
        rcases hm with hm | hm | hm
        · obtain ⟨n', e', hq, he, hu⟩ := abortFiles_writes u (p ++ [n]) cs q c hm
          exact ⟨du, cs, [n'], e', rfl, by simp [hq], he, hu⟩
        · exact absurd hm (mkdirOps_no_write (p ++ [n]) cs q c)
        · obtain ⟨r, e', hq, he, hu⟩ := abortDescend_writes u (p ++ [n]) cs q c hm
          exact ⟨du, cs, r, e', rfl, by simp [hq], he, hu⟩
    · simp [abortEntry, hdu] at hm

theorem abortDescend_writes (u : Nat) (p : Fpath) (cs : Forest)
    (q : Fpath) (c : List Nat) (hm : FsOp.write q c ∈ (abortDescend u p cs).1) :
    ∃ r e', q = p ++ r ∧ EntryAt cs r e' ∧ handleUid e' = some u := by
  cases cs with
  | nil => simp [abortDescend] at hm
  | cons n e rest =>
    by_cases h1 : (abortEntry u p n e).2
    · simp [abortDescend, h1] at hm
      obtain ⟨du', cs', r, e', hdc, hq, he, hu⟩ := abortEntry_writes u p n e q c hm
      subst hdc
      exact ⟨n :: r, e', hq, .down n du' cs' rest r e' he, hu⟩
    · simp only [Bool.not_eq_true] at h1
      simp [abortDescend, h1] at hm
      rcases hm with hm | hm
      · obtain ⟨du', cs', r, e', hdc, hq, he, hu⟩ := abortEntry_writes u p n e q c hm
        subst hdc
        exact ⟨n :: r, e', hq, .down n du' cs' rest r e' he, hu⟩
      · obtain ⟨r, e', hq, he, hu⟩ := abortDescend_writes u p rest q c hm
        exact ⟨r, e', hq, .there n _ rest r e' he, hu⟩

end

theorem abortCopytree_writes (u : Nat) (cs : Forest) (q : Fpath) (c : List Nat)
    (hm : FsOp.write q c ∈ (abortCopytree u cs).1) :
    ∃ e, EntryAt cs q e ∧ handleUid e = some u := by
  by_cases h1 : (abortFiles u [] cs).2
  · simp [abortCopytree, h1] at hm
    obtain ⟨n', e', hq, he, hu⟩ := abortFiles_writes u [] cs q c hm
    simp only [List.nil_append] at hq
    exact ⟨e', by rw [hq]; exact he, hu⟩
  · simp only [Bool.not_eq_true] at h1
    simp [abortCopytree, h1] at hm
    rcases hm with hm | hm | hm
    · obtain ⟨n', e', hq, he, hu⟩ := abortFiles_writes u [] cs q c hm
      simp only [List.nil_append] at hq
      exact ⟨e', by rw [hq]; exact he, hu⟩
    · exact absurd hm (mkdirOps_no_write [] cs q c)
    · obtain ⟨r, e', hq, he, hu⟩ := abortDescend_writes u [] cs q c hm
      simp only [List.nil_append] at hq
      exact ⟨e', by rw [hq]; exact he, hu⟩

theorem skipFiles_writes (u : Nat) (destOk : Bool) (p : Fpath) (acc : List FsOp)
    (cs : Forest) (q : Fpath) (c : List Nat)
    (hm : FsOp.write q c ∈ (skipFiles u destOk p acc cs).1) :
    FsOp.write q c ∈ acc ∨
      ∃ n e, q = p ++ [n] ∧ EntryAt cs [n] e ∧ handleUid e = some u := by
  cases cs with
  | nil => exact Or.inl (by simpa [skipFiles] using hm)
  | cons n e rest =>
    cases e with
    | file fu c' =>
      by_cases hfu : fu = u
      · cases destOk with
        | true =>
          simp [skipFiles, hfu] at hm
          rcases skipFiles_writes u true p _ rest q c hm with hm' | hm'
          · rcases List.mem_append.1 hm' with h | h
            · exact Or.inl h
            · simp only [List.mem_singleton] at h
              injection h with hq hc
              exact Or.inr ⟨n, .file fu c', hq, .here n _ rest, by simp [handleUid, hfu]⟩
          · obtain ⟨n', e', hq, he, hu⟩ := hm'
            exact Or.inr ⟨n', e', hq, .there n _ rest [n'] e' he, hu⟩
        | false =>
          simp [skipFiles, hfu] at hm
          exact Or.inl hm
      · simp [skipFiles, hfu] at hm
        rcases skipFiles_writes u destOk p acc rest q c hm with hm' | hm'
        · exact Or.inl hm'
        · obtain ⟨n', e', hq, he, hu⟩ := hm'
          exact Or.inr ⟨n', e', hq, .there n _ rest [n'] e' he, hu⟩
    | symlink su c' =>
      by_cases hsu : su = u
      · cases destOk with
        | true =>
          simp [skipFiles, hsu] at hm
          rcases skipFiles_writes u true p _ rest q c hm with hm' | hm'
          · rcases List.mem_append.1 hm' with h | h
            · exact Or.inl h
            · simp only [List.mem_singleton] at h
              injection h with hq hc
              exact Or.inr ⟨n, .symlink su c', hq, .here n _ rest, by simp [handleUid, hsu]⟩
          · obtain ⟨n', e', hq, he, hu⟩ := hm'
            exact Or.inr ⟨n', e', hq, .there n _ rest [n'] e' he, hu⟩
        | false =>
          simp [skipFiles, hsu] at hm
          exact Or.inl hm
      · simp [skipFiles, hsu] at hm
        rcases skipFiles_writes u destOk p acc rest q c hm with hm' | hm'
        · exact Or.inl hm'
        · obtain ⟨n', e', hq, he, hu⟩ := hm'
          exact Or.inr ⟨n', e', hq, .there n _ rest [n'] e' he, hu⟩
    | dir du cs' =>
      simp only [skipFiles] at hm
      rcases skipFiles_writes u destOk p acc rest q c hm with hm' | hm'
      · exact Or.inl hm'
      · obtain ⟨n', e', hq, he, hu⟩ := hm'
        exact Or.inr ⟨n', e', hq, .there n _ rest [n'] e' he, hu⟩

theorem skipMkdirs_writes (destOk : Bool) (p : Fpath) (acc : List FsOp)
    (cs : Forest) (q : Fpath) (c : List Nat)
    (hm : FsOp.write q c ∈ (skipMkdirs destOk p acc cs).1) : FsOp.write q c ∈ acc := by
  cases cs with
  | nil => simpa [skipMkdirs] using hm
  | cons n e rest =>
    cases e with
    | file fu c' =>
      exact skipMkdirs_writes destOk p acc rest q c (by simpa [skipMkdirs] using hm)
    | symlink su c' =>
      exact skipMkdirs_writes destOk p acc rest q c (by simpa [skipMkdirs] using hm)
    | dir du cs' =>
      cases destOk with
      | true =>
        simp [skipMkdirs] at hm
        have := skipMkdirs_writes true p _ rest q c hm
        rcases List.mem_append.1 this with h | h
        · exact h
        · simp only [List.mem_singleton] at h
          cases h
      | false =>
        simp [skipMkdirs] at hm
        exact hm

mutual

theorem skipEntry_writes (u : Nat) (p : Fpath) (n : String) (acc : List FsOp) (e : Entry)
    (q : Fpath) (c : List Nat) (hm : FsOp.write q c ∈ (skipEntry u p n acc e).1) :
    FsOp.write q c ∈ acc ∨
      ∃ du' cs' r e', e = Entry.dir du' cs' ∧ q = p ++ n :: r ∧
        EntryAt cs' r e' ∧ handleUid e' = some u := by
  cases e with
  | file fu c' => exact Or.inl (by simpa [skipEntry] using hm)
  | symlink su c' => exact Or.inl (by simpa [skipEntry] using hm)
  | dir du cs =>
    by_cases hdu : du = u
    · by_cases h1 : (skipFiles u (dirExists acc (p ++ [n])) (p ++ [n]) acc cs).2
      · simp [skipEntry, hdu, h1] at hm
        rcases skipFiles_writes u _ (p ++ [n]) acc cs q c hm with hm' | hm'
        · exact Or.inl hm'
        · obtain ⟨n', e', hq, he, hu⟩ := hm'
          exact Or.inr ⟨du, cs, [n'], e', rfl, by simp [hq], he, hu⟩
      · simp only [Bool.not_eq_true] at h1
        by_cases h2 : (skipMkdirs (dirExists acc (p ++ [n])) (p ++ [n])
            (skipFiles u (dirExists acc (p ++ [n])) (p ++ [n]) acc cs).1 cs).2
        · simp [skipEntry, hdu, h1, h2] at hm
          have := skipMkdirs_writes _ (p ++ [n]) _ cs q c hm
          rcases skipFiles_writes u _ (p ++ [n]) acc cs q c this with hm' | hm'
          · exact Or.inl hm'
          · obtain ⟨n', e', hq, he, hu⟩ := hm'
            exact Or.inr ⟨du, cs, [n'], e', rfl, by simp [hq], he, hu⟩
        · simp only [Bool.not_eq_true] at h2
          simp [skipEntry, hdu, h1, h2] at hm
          rcases skipDescend_writes u (p ++ [n]) _ cs q c hm with hm' | hm'
          · have := skipMkdirs_writes _ (p ++ [n]) _ cs q c hm'
            rcases skipFiles_writes u _ (p ++ [n]) acc cs q c this with hm'' | hm''
            · exact Or.inl hm''
            · obtain ⟨n', e', hq, he, hu⟩ := hm''
              exact Or.inr ⟨du, cs, [n'], e', rfl, by simp [hq], he, hu⟩
          · obtain ⟨r, e', hq, he, hu⟩ := hm'
            exact Or.inr ⟨du, cs, r, e', rfl, by simp [hq], he, hu⟩
    · simp [skipEntry, hdu] at hm
      rcases skipDescend_writes u (p ++ [n]) acc cs q c hm with hm' | hm'
      · exact Or.inl hm'
      · obtain ⟨r, e', hq, he, hu⟩ := hm'
        exact Or.inr ⟨du, cs, r, e', rfl, by simp [hq], he, hu⟩

theorem skipDescend_writes (u : Nat) (p : Fpath) (acc : List FsOp) (cs : Forest)
    (q : Fpath) (c : List Nat) (hm : FsOp.write q c ∈ (skipDescend u p acc cs).1) :
    FsOp.write q c ∈ acc ∨
      ∃ r e', q = p ++ r ∧ EntryAt cs r e' ∧ handleUid e' = some u := by
  cases cs with
  | nil => exact Or.inl (by simpa [skipDescend] using hm)
  | cons n e rest =>
    by_cases h1 : (skipEntry u p n acc e).2
    · simp [skipDescend, h1] at hm
      rcases skipEntry_writes u p n acc e q c hm with hm' | hm'
      · exact Or.inl hm'
      · obtain ⟨du', cs', r, e', hdc, hq, he, hu⟩ := hm'
        subst hdc
        exact Or.inr ⟨n :: r, e', hq, .down n du' cs' rest r e' he, hu⟩
    · simp only [Bool.not_eq_true] at h1
      simp [skipDescend, h1] at hm
      rcases skipDescend_writes u p _ rest q c hm with hm' | hm'
      · rcases skipEntry_writes u p n acc e q c hm' with hm'' | hm''
        · exact Or.inl hm''
        · obtain ⟨du', cs', r, e', hdc, hq, he, hu⟩ := hm''
          subst hdc
          exact Or.inr ⟨n :: r, e', hq, .down n du' cs' rest r e' he, hu⟩
      · obtain ⟨r, e', hq, he, hu⟩ := hm'
        exact Or.inr ⟨r, e', hq, .there n _ rest r e' he, hu⟩

end

theorem skipCopytree_writes (u : Nat) (cs : Forest) (q : Fpath) (c : List Nat)
    (hm : FsOp.write q c ∈ (skipCopytree u cs).1) :
    ∃ e, EntryAt cs q e ∧ handleUid e = some u := by
  have core : ∀ hm' : FsOp.write q c ∈ (skipFiles u true [] [] cs).1,
      ∃ e, EntryAt cs q e ∧ handleUid e = some u := by
    intro hm'
    rcases skipFiles_writes u true [] [] cs q c hm' with h | h
    · cases h
    · obtain ⟨n', e', hq, he, hu⟩ := h
      simp only [List.nil_append] at hq
      exact ⟨e', hq ▸ he, hu⟩
  by_cases h1 : (skipFiles u true [] [] cs).2
  · simp [skipCopytree, h1] at hm
    exact core hm
  · simp only [Bool.not_eq_true] at h1
    by_cases h2 : (skipMkdirs true [] (skipFiles u true [] [] cs).1 cs).2
    · simp [skipCopytree, h1, h2] at hm
      exact core (skipMkdirs_writes true [] _ cs q c hm)
    · simp only [Bool.not_eq_true] at h2
      simp [skipCopytree, h1, h2] at hm
      rcases skipDescend_writes u [] _ cs q c hm with hm' | hm'
      · exact core (skipMkdirs_writes true [] _ cs q c hm')
      · obtain ⟨r, e', hq, he, hu⟩ := hm'
        simp only [List.nil_append] at hq
        exact ⟨e', by rw [hq]; exact he, hu⟩

/-- Claim C3, confirmed: bytes reach the destination only from handles
whose `fstat` owner is the expected uid.  If every entry occurring at path
`q` in the source tree is a symbolic link whose target is owned by some
`v ≠ u` — in particular a link pointing outside the tree at a
foreign-owned target — then neither `projects.copytree_owner` nor
`utils.copytree_owner` ever writes anything at `q` in the destination: the
ownership check runs on the opened handle before any bytes are copied, so
the link is treated as an ownership mismatch. -/
theorem copy_never_writes_unowned_symlink (u : Nat) (cs : Forest) (q : Fpath)
    (hall : ∀ e, EntryAt cs q e → ∃ v tc, e = Entry.symlink v tc ∧ v ≠ u) :
    (∀ c, FsOp.write q c ∉ (abortCopytree u cs).1) ∧
    (∀ c, FsOp.write q c ∉ (skipCopytree u cs).1) := by
  constructor
  · intro c hm
    obtain ⟨e, he, hu⟩ := abortCopytree_writes u cs q c hm
    obtain ⟨v, tc, hlink, hv⟩ := hall e he
    subst hlink
    simp only [handleUid, Option.some.injEq] at hu
    exact hv hu
  · intro c hm
    obtain ⟨e, he, hu⟩ := skipCopytree_writes u cs q c hm
    obtain ⟨v, tc, hlink, hv⟩ := hall e he
    subst hlink
    simp only [handleUid, Option.some.injEq] at hu
    exact hv hu

/-- Inversion for `EntryAt` on a non-empty forest. -/
theorem entryAt_cons (n : String) (e' : Entry) (rest : Forest) (q : Fpath) (e : Entry)
    (h : EntryAt (.cons n e' rest) q e) :
    (q = [n] ∧ e = e') ∨ EntryAt rest q e ∨
      ∃ du cs q', e' = Entry.dir du cs ∧ q = n :: q' ∧ EntryAt cs q' e := by
  cases h with
  | here => exact Or.inl ⟨rfl, rfl⟩
  | there _ _ _ _ _ h' => exact Or.inr (Or.inl h')
  | down _ du cs _ q' _ h' => exact Or.inr (Or.inr ⟨du, cs, q', rfl, rfl, h'⟩)

/-- A source tree holding one regular file owned by uid 7 and one symbolic
link whose target (outside the tree) is owned by uid 0. -/
def c3Tree : Forest :=
  Forest.cons "data" (.file 7 [1]) (Forest.cons "evil" (.symlink 0 [9]) Forest.nil)

theorem c3Tree_only_symlink_at_evil (e : Entry) (h : EntryAt c3Tree ["evil"] e) :
    ∃ v tc, e = Entry.symlink v tc ∧ v ≠ 7 := by
  have h0 : EntryAt (Forest.cons "data" (Entry.file 7 [1])
      (Forest.cons "evil" (Entry.symlink 0 [9]) Forest.nil)) ["evil"] e := h
  rcases entryAt_cons _ _ _ _ _ h0 with ⟨hq, _⟩ | h1 | ⟨du, cs, q', hd, _, _⟩
  · exact absurd hq (by decide)
  · rcases entryAt_cons _ _ _ _ _ h1 with ⟨_, he⟩ | h2 | ⟨du, cs, q', hd, _, _⟩
    · exact ⟨0, [9], he, by decide⟩
    · cases h2
    · cases hd
  · cases hd

/-- Witness for claim C3: on the concrete tree `c3Tree` the target bytes
`[9]` of the foreign-owned symlink `evil` are never written at its path by
either copy variant. -/
theorem copy_never_writes_unowned_symlink_witness :
    FsOp.write ["evil"] [9] ∉ (abortCopytree 7 c3Tree).1 ∧
    FsOp.write ["evil"] [9] ∉ (skipCopytree 7 c3Tree).1 :=
  ⟨(copy_never_writes_unowned_symlink 7 c3Tree ["evil"] c3Tree_only_symlink_at_evil).1 [9],
   (copy_never_writes_unowned_symlink 7 c3Tree ["evil"] c3Tree_only_symlink_at_evil).2 [9]⟩

/-! ## utils.add_acl (utils.py lines 14-36) and WorkspaceManager

`add_acl(file, permissions, user=None, group=None)` validates `user` and
`group` against `USER_REGEX = "^[a-zA-Z0-9]*$"`, "validates" `permissions`
against `re.match("[rwx]*", permissions)` — which matches the empty prefix
of *any* string and is therefore never `None`, so that check can never
fail — and then runs `setfacl`; a `CalledProcessError` from `setfacl` is
caught and only logged.  A falsy (absent) name skips both its check and
its `setfacl` call; `none` models that.  Its callers in projects.py all
pass the arguments positionally as `add_acl(path, user, perms)`, binding
`permissions` to the user *name* and `user` to the literal permission
string — modelled exactly as called. -/

/-- `re.match("^[a-zA-Z0-9]*$", s)` succeeds exactly when every character
is an ASCII letter or digit. -/
def alnumName (s : String) : Bool :=
  s.toList.all (fun ch => ch.isAlpha || ch.isDigit)

/-- The name check applied to an optional name: an absent name is not
checked. -/
def optNameOk : Option String → Bool
  | none => true
  | some s => alnumName s

/-- A filesystem/tool effect of the preparation-side functions. -/
inductive POp where
  | mkdir (p : Fpath)
  | setfacl (p : Fpath) (arg : String)
  | copyFile (p : Fpath)
deriving Repr, DecidableEq

/-- The Python exceptions the preparation-side functions can raise. -/
inductive PrepErr where
  | targetExists
  | mkdirFailed (p : Fpath)
  | invalidUserName
  | invalidGroupName
  | assertNotDir
  | jsonInvalid
deriving Repr, DecidableEq

/-- `utils.add_acl file permissions user group`; `setfaclFails` says
whether a `setfacl` invocation exits non-zero (`CalledProcessError`),
in which case the `try` block is left — a failing user grant also skips
the group grant — but no exception propagates. -/
def add_acl (file : Fpath) (permissions : String) (user group : Option String)
    (setfaclFails : Bool) : List POp × Option PrepErr :=
  if optNameOk user = false then ([], some .invalidUserName)
  else if optNameOk group = false then ([], some .invalidGroupName)
  else
    match user, group with
    | none, none => ([], none)
    | some su, none => ([POp.setfacl file ("u:" ++ su ++ ":" ++ permissions)], none)
    | none, some sg => ([POp.setfacl file ("g:" ++ sg ++ ":" ++ permissions)], none)
    | some su, some sg =>
        if setfaclFails then
          ([POp.setfacl file ("u:" ++ su ++ ":" ++ permissions)], none)
        else
          ([POp.setfacl file ("u:" ++ su ++ ":" ++ permissions),
            POp.setfacl file ("g:" ++ sg ++ ":" ++ permissions)], none)

theorem add_acl_ok (file : Fpath) (permissions : String) (user group : Option String)
    (setfaclFails : Bool) (hu : optNameOk user = true) (hg : optNameOk group = true) :
    (add_acl file permissions user group setfaclFails).2 = none := by
  cases user with
  | none =>
    cases group with
    | none => simp [add_acl, optNameOk]
    | some sg =>
      simp only [optNameOk] at hg
      simp [add_acl, optNameOk, hg]
  | some su =>
    cases group with
    | none =>
      simp only [optNameOk] at hu
      simp [add_acl, optNameOk, hu]
    | some sg =>
      simp only [optNameOk] at hu hg
      cases setfaclFails with
      | true => simp [add_acl, optNameOk, hu, hg]
      | false => simp [add_acl, optNameOk, hu, hg]

/-- The paths of the `mkdir` effects in a trace. -/
def mkdirPaths (ops : List POp) : List Fpath :=
  ops.filterMap (fun op => match op with | POp.mkdir p => some p | _ => none)

theorem mkdirPaths_add_acl (file : Fpath) (permissions : String)
    (user group : Option String) (setfaclFails : Bool) :
    mkdirPaths (add_acl file permissions user group setfaclFails).1 = [] := by
  cases user <;> cases group <;> cases setfaclFails <;>
    simp [add_acl, mkdirPaths, optNameOk] <;> split_ifs <;> simp [mkdirPaths]

/-- The namedtuple fields after `base` in `projects.prepare`
(projects.py line 52). -/
def workdirFields : List String :=
  ["data", "src", "var", "result", "run", "ref", "logs"]

/-- The directories `projects.prepare` creates when the target is absent,
in creation order: the target itself, then each fixed subdirectory as a
direct child. -/
def prepareDirs (t : String) : List Fpath :=
  [t] :: workdirFields.map (fun f => [t, f])

/-- The creation loop of `projects.prepare` (lines 61-64): `os.mkdir`
each directory with mode 0o700 and, when a user was supplied, call
`utils.add_acl(directory, user, 'rwx', group=group)` — positionally, so
`add_acl` receives the user name as `permissions` and the literal string
"rwx" as `user`.  `mkdirFails p` says whether the `os.mkdir` of `p`
raises an `OSError` (quota, permissions, ...), which propagates. -/
def prepareLoop (user group : Option String) (mkdirFails : Fpath → Bool)
    (setfaclFails : Bool) : List Fpath → List POp × Option PrepErr
  | [] => ([], none)
  | p :: rest =>
      if mkdirFails p then ([], some (.mkdirFailed p))
      else
        match user with
        | none =>
            let r := prepareLoop user group mkdirFails setfaclFails rest
            (POp.mkdir p :: r.1, r.2)
        | some uname =>
            let a := add_acl p uname (some "rwx") group setfaclFails
            match a.2 with
            | some e => (POp.mkdir p :: a.1, some e)
            | none =>
                let r := prepareLoop user group mkdirFails setfaclFails rest
                (POp.mkdir p :: a.1 ++ r.1, r.2)

/-- `projects.prepare target force_create user group` (projects.py lines
19-68): `targetExists` is `os.path.exists(target)`; `existingValid` is
the conjunction of the `os.path.isdir` asserts of the reuse branch. -/
def prepare (t : String) (forceCreate : Bool) (user group : Option String)
    (targetExists : Bool) (mkdirFails : Fpath → Bool) (setfaclFails : Bool)
    (existingValid : Bool) : List POp × Option PrepErr :=
  if targetExists && forceCreate then ([], some .targetExists)
  else if !targetExists then
    prepareLoop user group mkdirFails setfaclFails (prepareDirs t)
  else if existingValid then ([], none)
  else ([], some .assertNotDir)

theorem prepareLoop_take (user group : Option String) (mkdirFails : Fpath → Bool)
    (setfaclFails : Bool) (ds : List Fpath) :
    (∃ k, mkdirPaths (prepareLoop user group mkdirFails setfaclFails ds).1 = ds.take k) ∧
    ((prepareLoop user group mkdirFails setfaclFails ds).2 = none →
      mkdirPaths (prepareLoop user group mkdirFails setfaclFails ds).1 = ds) := by
  induction ds with
  | nil => exact ⟨⟨0, by simp [prepareLoop, mkdirPaths]⟩, by simp [prepareLoop, mkdirPaths]⟩
  | cons p rest ih =>
    by_cases hmf : mkdirFails p
    · refine ⟨⟨0, by simp [prepareLoop, hmf, mkdirPaths]⟩, ?_⟩
      intro h
      simp [prepareLoop, hmf] at h
    · cases user with
      | none =>
        obtain ⟨⟨k, hk⟩, hfull⟩ := ih
        refine ⟨⟨k + 1, ?_⟩, ?_⟩
        · simp [prepareLoop, hmf, mkdirPaths] at hk ⊢
          exact hk
        · intro h
          simp only [prepareLoop, hmf, Bool.false_eq_true, if_false] at h
          simp [prepareLoop, hmf, mkdirPaths] at hfull ⊢
          exact hfull h
      | some uname =>
        obtain ⟨⟨k, hk⟩, hfull⟩ := ih
        cases ha : (add_acl p uname (some "rwx") group setfaclFails).2 with
        | some e =>
          refine ⟨⟨1, ?_⟩, ?_⟩
          · have hma := mkdirPaths_add_acl p uname (some "rwx") group setfaclFails
            simp only [prepareLoop, hmf, Bool.false_eq_true, if_false, ha]
            simp only [mkdirPaths, List.filterMap_cons, List.filterMap_append] at hma ⊢
            simp [hma]
          · intro h
            simp [prepareLoop, hmf, ha] at h
        | none =>
          have hma := mkdirPaths_add_acl p uname (some "rwx") group setfaclFails
          refine ⟨⟨k + 1, ?_⟩, ?_⟩
          · simp only [prepareLoop, hmf, Bool.false_eq_true, if_false, ha]
            simp only [mkdirPaths, List.filterMap_cons, List.filterMap_append] at hk hma ⊢
            simp [hma, hk]
          · intro h
            simp only [prepareLoop, hmf, Bool.false_eq_true, if_false, ha] at h
            simp only [prepareLoop, hmf, Bool.false_eq_true, if_false, ha]
            simp only [mkdirPaths, List.filterMap_cons, List.filterMap_append] at hfull hma ⊢
            simp [hma, hfull h]

theorem prepareDirs_shape (t : String) (p : Fpath) (hp : p ∈ prepareDirs t) :
    p = [t] ∨ ∃ f, f ∈ workdirFields ∧ p = [t, f] := by
  simp only [prepareDirs, List.mem_cons, List.mem_map] at hp
  rcases hp with hp | ⟨f, hf, hp⟩
  · exact Or.inl hp
  · exact Or.inr ⟨f, hf, hp.symm⟩

/-! ## Claim C5 -/

/-- Claim C5, confirmed: when the target already exists and
`force_create` is true, `projects.prepare` raises
`ValueError('Target directory exists.')` (the spec's PreconditionError)
as its very first statement: no directory is created and no ACL granted —
the effect trace is empty — for every user/group and every behaviour of
`os.mkdir` and `setfacl`. -/
theorem prepare_force_existing_fails_clean (t : String) (user group : Option String)
    (mkdirFails : Fpath → Bool) (setfaclFails : Bool) (existingValid : Bool) :
    prepare t true user group true mkdirFails setfaclFails existingValid =
      ([], some PrepErr.targetExists) := rfl

/-! ## Claim C4 -/

/-- An `os.mkdir` failure oracle that fails exactly on `w/src`. -/
def c4Fail : Fpath → Bool := fun p => decide (p = ["w", "src"])

/-- Claim C4 as stated is false: when the `os.mkdir` of `w/src` fails
partway through a fresh creation, `prepare` has already created the root
`w` and the subdirectory `w/data`, has not created `w/src`, and
propagates the `OSError` — the observable filesystem state has the root
and some but not all fixed subdirectories, a half-created workspace. -/
theorem prepare_half_created_observable :
    POp.mkdir ["w"] ∈ (prepare "w" true none none false c4Fail false true).1 ∧
    POp.mkdir ["w", "data"] ∈ (prepare "w" true none none false c4Fail false true).1 ∧
    POp.mkdir ["w", "src"] ∉ (prepare "w" true none none false c4Fail false true).1 ∧
    (prepare "w" true none none false c4Fail false true).2 =
      some (PrepErr.mkdirFailed ["w", "src"]) := by
  refine ⟨by decide, by decide, by decide, by decide⟩

/-- Claim C4, amended: every directory `prepare` creates is the root or a
direct child of the root, and the set created is always a *prefix* of the
fixed creation order (root first); when the call returns without error on
a fresh target the whole list is created.  But there is no rollback: when
an individual `os.mkdir` fails partway, the already-created prefix
remains, so the all-or-none half of the invariant does not hold — a
half-created workspace is observable, as `prepare_half_created_observable`
shows. -/
theorem prepare_creates_prefix_of_fixed_order (t : String) (fc : Bool)
    (user group : Option String) (te : Bool) (mf : Fpath → Bool) (sf : Bool) (ev : Bool) :
    (∃ k, mkdirPaths (prepare t fc user group te mf sf ev).1 = (prepareDirs t).take k) ∧
    (te = false → (prepare t fc user group te mf sf ev).2 = none →
      mkdirPaths (prepare t fc user group te mf sf ev).1 = prepareDirs t) ∧
    (∀ p ∈ mkdirPaths (prepare t fc user group te mf sf ev).1,
      p = [t] ∨ ∃ f, f ∈ workdirFields ∧ p = [t, f]) := by
  have key := prepareLoop_take user group mf sf (prepareDirs t)
  cases te with
  | true =>
    cases fc with
    | true =>
      refine ⟨⟨0, by simp [prepare, mkdirPaths]⟩, by simp, ?_⟩
      simp [prepare, mkdirPaths]
    | false =>
      cases ev with
      | true =>
        refine ⟨⟨0, by simp [prepare, mkdirPaths]⟩, by simp, ?_⟩
        simp [prepare, mkdirPaths]
      | false =>
        refine ⟨⟨0, by simp [prepare, mkdirPaths]⟩, by simp, ?_⟩
        simp [prepare, mkdirPaths]
  | false =>
    have hpre : prepare t fc user group false mf sf ev =
        prepareLoop user group mf sf (prepareDirs t) := by
      simp [prepare]
    refine ⟨?_, ?_, ?_⟩
    · rw [hpre]; exact key.1
    · intro _ h
      rw [hpre] at h ⊢
      exact key.2 h
    · intro p hp
      rw [hpre] at hp
      obtain ⟨k, hk⟩ := key.1
      rw [hk] at hp
      exact prepareDirs_shape t p (List.take_subset k (prepareDirs t) hp)

/-- Witness for the amended claim C4: a clean fresh run on target `w`
creates exactly the full fixed list of directories. -/
theorem prepare_creates_prefix_of_fixed_order_witness :
    mkdirPaths (prepare "w" true none none false (fun _ => false) false true).1 =
      prepareDirs "w" :=
  (prepare_creates_prefix_of_fixed_order "w" true none none false
    (fun _ => false) false true).2.1 rfl (by decide)

/-! ## Claim C9 -/

/-- Claim C9 as stated is false: a successful fresh `projects.prepare`
creates no `etc`, no `archive` and no `usr` subdirectory — the namedtuple
in projects.py line 52 has only the seven subdirectory fields `data`,
`src`, `var`, `result`, `run`, `ref`, `logs`. -/
theorem prepare_not_ten_subdirs :
    (prepare "w" true none none false (fun _ => false) false true).2 = none ∧
    POp.mkdir ["w", "etc"] ∉ (prepare "w" true none none false (fun _ => false) false true).1 ∧
    POp.mkdir ["w", "archive"] ∉
      (prepare "w" true none none false (fun _ => false) false true).1 ∧
    POp.mkdir ["w", "usr"] ∉ (prepare "w" true none none false (fun _ => false) false true).1 := by
  refine ⟨by decide, by decide, by decide, by decide⟩

/-- Claim C9, amended: for every freshly created workspace produced by
`projects.prepare` (absent target, no creation failure), the directories
created are exactly the root followed by the seven fixed subdirectories
`data`, `src`, `var`, `result`, `run`, `ref`, `logs` as direct children —
not the ten directories claimed. -/
theorem prepare_subdirs_exactly_seven (t : String) (fc : Bool)
    (user group : Option String) (mf : Fpath → Bool) (sf : Bool) (ev : Bool)
    (hok : (prepare t fc user group false mf sf ev).2 = none) :
    mkdirPaths (prepare t fc user group false mf sf ev).1 =
      [t] :: (["data", "src", "var", "result", "run", "ref", "logs"].map (fun f => [t, f])) := by
  have hpre : prepare t fc user group false mf sf ev =
      prepareLoop user group mf sf (prepareDirs t) := by
    simp [prepare]
  rw [hpre] at hok ⊢
  exact (prepareLoop_take user group mf sf (prepareDirs t)).2 hok

/-- Witness for the amended claim C9: the concrete successful run on
target `w`. -/
theorem prepare_subdirs_exactly_seven_witness :
    mkdirPaths (prepare "w" true (some "alice") none false (fun _ => false) false true).1 =
      [["w"]] ++ (["data", "src", "var", "result", "run", "ref", "logs"].map
        (fun f => ["w", f])) := by
  have h := prepare_subdirs_exactly_seven "w" true (some "alice") none
    (fun _ => false) false true (by decide)
  simpa using h

/-! ## projects.config (lines 133-148), projects.copy_data (lines 151-159) -/

/-- `projects.config workdir param_files user`: for each workflow the
params file is parsed with `json.load` (raising on invalid JSON), copied
to `run/<workflow>.json`, and, when a user is given, granted with
`utils.add_acl(dest, user, 'r')` — again positionally, so the user name
lands in `permissions` and the literal "r" in `user`.  An item is the
workflow name and whether its params file is valid JSON. -/
def config (user : Option String) (setfaclFails : Bool) :
    List (String × Bool) → List POp × Option PrepErr
  | [] => ([], none)
  | (wf, jsonOk) :: rest =>
      if jsonOk then
        match user with
        | none =>
            let r := config user setfaclFails rest
            (POp.copyFile [wf] :: r.1, r.2)
        | some uname =>
            let a := add_acl [wf] uname (some "r") none setfaclFails
            match a.2 with
            | some e => (POp.copyFile [wf] :: a.1, some e)
            | none =>
                let r := config user setfaclFails rest
                (POp.copyFile [wf] :: a.1 ++ r.1, r.2)
      else ([], some .jsonInvalid)

/-- `projects.copy_data workdir data user`: each data file is copied into
the `data` directory with `shutil.copyfile` and, when a user is given,
granted with `utils.add_acl(dest, user, 'r')` (arguments positionally
swapped as above). -/
def copy_data (user : Option String) (setfaclFails : Bool) :
    List String → List POp × Option PrepErr
  | [] => ([], none)
  | name :: rest =>
      match user with
      | none =>
          let r := copy_data user setfaclFails rest
          (POp.copyFile [name] :: r.1, r.2)
      | some uname =>
          let a := add_acl [name] uname (some "r") none setfaclFails
          match a.2 with
          | some e => (POp.copyFile [name] :: a.1, some e)
          | none =>
              let r := copy_data user setfaclFails rest
              (POp.copyFile [name] :: a.1 ++ r.1, r.2)

theorem prepareLoop_ok (user group : Option String) (mf : Fpath → Bool) (sf : Bool)
    (ds : List Fpath) (hmf : ∀ p, mf p = false)
    (hg : optNameOk group = true) (hu : optNameOk user = true) :
    (prepareLoop user group mf sf ds).2 = none := by
  induction ds with
  | nil => simp [prepareLoop]
  | cons p rest ih =>
    cases huser : user with
    | none =>
      rw [huser] at ih
      simp [prepareLoop, hmf p, ih]
    | some uname =>
      have ha : (add_acl p uname (some "rwx") group sf).2 = none :=
        add_acl_ok p uname (some "rwx") group sf (by simp [optNameOk, alnumName]) hg
      rw [huser] at ih
      simp [prepareLoop, hmf p, ha, ih]

theorem config_ok (user : Option String) (sf : Bool) (items : List (String × Bool))
    (hjson : ∀ wb ∈ items, wb.2 = true) (hu : optNameOk user = true) :
    (config user sf items).2 = none := by
  induction items with
  | nil => simp [config]
  | cons wb rest ih =>
    obtain ⟨wf, jsonOk⟩ := wb
    have hj : jsonOk = true := hjson (wf, jsonOk) (List.mem_cons_self _ _)
    have hrest := ih (fun wb hwb => hjson wb (List.mem_cons_of_mem _ hwb))
    cases huser : user with
    | none => simp [config, hj, huser ▸ hrest]
    | some uname =>
      have ha : (add_acl [wf] uname (some "r") none sf).2 = none :=
        add_acl_ok [wf] uname (some "r") none sf (by simp [optNameOk, alnumName]) (by simp [optNameOk])
      rw [huser] at hrest
      simp [config, hj, ha, hrest]

theorem copy_data_ok (user : Option String) (sf : Bool) (data : List String)
    (hu : optNameOk user = true) : (copy_data user sf data).2 = none := by
  induction data with
  | nil => simp [copy_data]
  | cons name rest ih =>
    cases huser : user with
    | none => simp [copy_data, huser ▸ ih]
    | some uname =>
      have ha : (add_acl [name] uname (some "r") none sf).2 = none :=
        add_acl_ok [name] uname (some "r") none sf (by simp [optNameOk, alnumName]) (by simp [optNameOk])
      rw [huser] at ih
      simp [copy_data, ha, ih]

/-! ## Claim C10 -/

/-- Claim C10, confirmed: with valid user and group names `utils.add_acl`
returns normally even when every `setfacl` invocation fails — the
`CalledProcessError` is caught and only logged (and the `[rwx]*`
permissions check can never fail, since that regex matches a prefix of any
string); consequently `prepare`, `config` and `copy_data` complete without
error even though the requested access grant did not take effect
(`setfaclFails = true` throughout). -/
theorem add_acl_swallows_setfacl_failure (f : Fpath) (perms : String)
    (user group : Option String) (t : String) (fc : Bool) (ev : Bool)
    (items : List (String × Bool)) (data : List String)
    (hu : optNameOk user = true) (hg : optNameOk group = true)
    (hjson : ∀ wb ∈ items, wb.2 = true) :
    (add_acl f perms user group true).2 = none ∧
    (prepare t fc user group false (fun _ => false) true ev).2 = none ∧
    (config user true items).2 = none ∧
    (copy_data user true data).2 = none := by
  refine ⟨add_acl_ok f perms user group true hu hg, ?_, config_ok user true items hjson hu,
    copy_data_ok user true data hu⟩
  have hpre : prepare t fc user group false (fun _ => false) true ev =
      prepareLoop user group (fun _ => false) true (prepareDirs t) := by
    simp [prepare]
  rw [hpre]
  exact prepareLoop_ok user group (fun _ => false) true (prepareDirs t)
    (fun _ => rfl) hg hu

/-- Witness for claim C10: a concrete run with user `alice`, group `qbic`,
one workflow with a valid params file and one data file, where every
`setfacl` call fails, and everything completes without error. -/
theorem add_acl_swallows_setfacl_failure_witness :
    (add_acl ["w"] "rwx" (some "alice") (some "qbic") true).2 = none ∧
    (prepare "w" true (some "alice") (some "qbic") false (fun _ => false) true true).2 = none ∧
    (config (some "alice") true [("qcprot", true)]).2 = none ∧
    (copy_data (some "alice") true ["sample.raw"]).2 = none :=
  add_acl_swallows_setfacl_failure ["w"] "rwx" (some "alice") (some "qbic") "w" true true
    [("qcprot", true)] ["sample.raw"] (by decide) (by decide) (by decide)

/-! ## ProcessSupervisor: projects.run_workflow (projects.py lines 233-278)

The supervisor checks the workflow directory and the `qbicrun` executable,
optionally copies the config, spawns `sudoArgv -u user ./qbicrun` (or plain
`./qbicrun`), installs a SIGTERM handler that calls `sys.exit`, and blocks
in `process.wait()`.  A SIGTERM during the wait raises `SystemExit` there;
the handler path then runs `subprocess.check_call(sudoArgv + ['kill', pid])`
once, catches any exception from it (logging only), and re-raises the
`SystemExit` in the `finally` block — so the supervisor terminates whether
or not the kill succeeded.  Otherwise a non-zero `process.returncode`
raises `RuntimeError`. -/

/-- The privilege-elevation prefix (projects.py lines 234-237). -/
def sudoArgv : Option String → List String
  | some uname => ["sudoArgv", "-u", uname]
  | none => []

/-- An observable action of `run_workflow`. -/
inductive RunEvent where
  | copyConfig
  | aclConfig
  | spawn (argv : List String)
  | kill (argv : List String) (ok : Bool)
deriving Repr, DecidableEq

/-- The exceptions `run_workflow` can raise. -/
inductive RunErr where
  | workflowDirMissing
  | executableMissing
  | nonzeroExit (rc : Nat)
  | sigtermExit
deriving Repr, DecidableEq

/-- How the blocking `process.wait()` ends: the child exits with a code,
or a SIGTERM is delivered to the supervisor mid-wait. -/
inductive WaitOutcome where
  | completed (rc : Nat)
  | sigterm
deriving Repr, DecidableEq

/-- `projects.run_workflow workdir workflow_dir user`: `dirPresent` and
`execPresent` are the two `os.path.exists` pre-flight checks,
`configPresent` whether `run/<workflow>.json` exists, `pid` the child's
process id and `killOk` whether the elevated kill request succeeds. -/
def run_workflow (user : Option String) (dirPresent execPresent configPresent : Bool)
    (pid : Nat) (outcome : WaitOutcome) (killOk : Bool) :
    List RunEvent × Option RunErr :=
  if !dirPresent then ([], some .workflowDirMissing)
  else if !execPresent then ([], some .executableMissing)
  else
    let pre :=
      if configPresent then
        RunEvent.copyConfig ::
          (match user with | some _ => [RunEvent.aclConfig] | none => [])
      else []
    let ev := pre ++ [RunEvent.spawn (sudoArgv user ++ ["./qbicrun"])]
    match outcome with
    | .completed rc =>
        if rc ≠ 0 then (ev, some (.nonzeroExit rc)) else (ev, none)
    | .sigterm =>
        (ev ++ [RunEvent.kill (sudoArgv user ++ ["kill", toString pid]) killOk],
          some .sigtermExit)

/-- An observable action of the `commandline._run` pipeline. -/
inductive PipeEvent where
  | writeConfig
  | wait
  | archiveResult
deriving Repr, DecidableEq

/-- The exceptions `commandline._run` can raise. -/
inductive PipeErr where
  | srcMissing
  | nonzeroExit
deriving Repr, DecidableEq

/-- `commandline._run workflow args` (commandline.py lines 124-140): check
the workflow source directory, optionally write the config, spawn and
wait; a non-zero `popen.returncode` raises `RuntimeError` before
`workflow.archive_result()` is ever reached; on a zero code the result is
archived. -/
def runPipeline (srcPresent hasParams : Bool) (rc : Nat) :
    List PipeEvent × Option PipeErr :=
  if !srcPresent then ([], some .srcMissing)
  else
    let pre := if hasParams then [PipeEvent.writeConfig] else []
    if rc ≠ 0 then (pre ++ [PipeEvent.wait], some .nonzeroExit)
    else (pre ++ [PipeEvent.wait, PipeEvent.archiveResult], none)

/-! ## Claim C6 -/

/-- Claim C6, confirmed: a non-zero child exit code makes
`projects.run_workflow` raise `RuntimeError` (the spec's ProcessError),
and in the `commandline._run` pipeline a non-zero `popen.returncode`
raises before delivery — `workflow.archive_result()` is never attempted,
and the pipeline never ends without error. -/
theorem nonzero_exit_fails_and_blocks_delivery (user : Option String)
    (configPresent : Bool) (pid : Nat) (killOk : Bool) (rc : Nat)
    (srcPresent hasParams : Bool) (hrc : rc ≠ 0) :
    (run_workflow user true true configPresent pid (.completed rc) killOk).2 =
      some (RunErr.nonzeroExit rc) ∧
    (runPipeline srcPresent hasParams rc).2 ≠ none ∧
    PipeEvent.archiveResult ∉ (runPipeline srcPresent hasParams rc).1 := by
  refine ⟨by simp [run_workflow, hrc], ?_, ?_⟩
  · cases srcPresent with
    | false => simp [runPipeline]
    | true => simp [runPipeline, hrc]
  · cases srcPresent with
    | false => simp [runPipeline]
    | true =>
      cases hasParams with
      | false => simp [runPipeline, hrc]
      | true => simp [runPipeline, hrc]

/-- Witness for claim C6: the child exits with code 3; the supervisor
raises and the pipeline neither succeeds nor archives. -/
theorem nonzero_exit_fails_and_blocks_delivery_witness :
    (run_workflow (some "alice") true true true 4242 (.completed 3) true).2 =
      some (RunErr.nonzeroExit 3) ∧
    (runPipeline true true 3).2 ≠ none ∧
    PipeEvent.archiveResult ∉ (runPipeline true true 3).1 :=
  nonzero_exit_fails_and_blocks_delivery (some "alice") true 4242 true 3 true true
    (by decide)

/-! ## Claim C7 -/

/-- Claim C7, confirmed: when a SIGTERM arrives while the supervisor is
blocked in `process.wait()`, exactly one kill request is issued for the
child, through the same privilege-elevation prefix `sudoArgv user` used to
spawn it, and the supervisor terminates (the re-raised `SystemExit`) both
when the kill request succeeds and when it fails — a failed kill is
logged, never retried, and never prevents the exit. -/
theorem sigterm_kills_child_and_exits (user : Option String)
    (configPresent : Bool) (pid : Nat) (killOk : Bool) :
    (run_workflow user true true configPresent pid .sigterm killOk).2 =
      some RunErr.sigtermExit ∧
    RunEvent.spawn (sudoArgv user ++ ["./qbicrun"]) ∈
      (run_workflow user true true configPresent pid .sigterm killOk).1 ∧
    (run_workflow user true true configPresent pid .sigterm killOk).1.filter
      (fun ev => match ev with | RunEvent.kill _ _ => true | _ => false) =
      [RunEvent.kill (sudoArgv user ++ ["kill", toString pid]) killOk] := by
  refine ⟨by simp [run_workflow], ?_, ?_⟩ <;>
    cases configPresent <;> cases user <;> simp [run_workflow]

/-! ## DaemonLauncher: utils.daemonize (utils.py lines 107-143) -/

/-- An observable action of `utils.daemonize`, seen from the lineage of
the surviving daemon process (both parents call `os._exit(0)`). -/
inductive DmnEvent where
  | fork
  | setsid
  | umaskSet (m : Nat)
  | pidWrite
  | registerAtexit
  | closeFds
  | runFunc
  | funcErrorLogged
deriving Repr, DecidableEq

/-- The exception that escapes `utils.write_pidfile`. -/
inductive DmnErr where
  | pidfileExists
deriving Repr, DecidableEq

/-- `utils.write_pidfile pidfile` (utils.py lines 145-159):
`open(pidfile, 'xt')` raises `FileExistsError` when the pidfile is
already present; the failure is logged and re-raised.  Otherwise the pid
is written and the atexit removal hook registered. -/
def write_pidfile (pidfilePresent : Bool) : List DmnEvent × Option DmnErr :=
  if pidfilePresent then ([], some .pidfileExists)
  else ([DmnEvent.pidWrite, DmnEvent.registerAtexit], none)

/-- `utils.daemonize func pidfile umask` with both `os.fork` calls
succeeding: first fork, `os.setsid`, second fork, `os.umask(umask)`, and
only then `write_pidfile` — whose failure propagates out of the already
detached daemon, so `func` never runs.  On success the std fds are
redirected and `func` is run; an exception from `func` (`funcFails`) is
caught and logged, never propagated. -/
def daemonize (pidfilePresent : Bool) (m : Nat) (funcFails : Bool) :
    List DmnEvent × Option DmnErr :=
  let pre := [DmnEvent.fork, DmnEvent.setsid, DmnEvent.fork, DmnEvent.umaskSet m]
  match write_pidfile pidfilePresent with
  | (ops, some e) => (pre ++ ops, some e)
  | (ops, none) =>
      (pre ++ ops ++ [DmnEvent.closeFds, DmnEvent.runFunc] ++
        (if funcFails then [DmnEvent.funcErrorLogged] else []), none)

/-! ## Claim C8 -/

/-- Claim C8 as stated is false: with an already existing pidfile,
`utils.daemonize` does fail and never runs the entry point, but the
failure happens only *after* process detachment — both forks and the
`os.setsid` session change have already been performed when
`write_pidfile` raises. -/
theorem daemonize_forks_before_pidfile_check :
    (daemonize true 0 false).2 = some DmnErr.pidfileExists ∧
    DmnEvent.fork ∈ (daemonize true 0 false).1 ∧
    DmnEvent.setsid ∈ (daemonize true 0 false).1 := by
  refine ⟨by decide, by decide, by decide⟩

/-- Claim C8, amended: with an already existing pidfile `utils.daemonize`
fails with `FileExistsError` at the exclusive pidfile creation and the
entry point is never executed, but only after the two forks, the session
change and the umask have been performed — the trace up to the failure is
exactly fork, setsid, fork, umask, as `daemonize_forks_before_pidfile_check`
shows at a concrete input. -/
theorem daemonize_existing_pidfile_no_entrypoint (m : Nat) (funcFails : Bool) :
    (daemonize true m funcFails).2 = some DmnErr.pidfileExists ∧
    DmnEvent.runFunc ∉ (daemonize true m funcFails).1 ∧
    (daemonize true m funcFails).1 =
      [DmnEvent.fork, DmnEvent.setsid, DmnEvent.fork, DmnEvent.umaskSet m] := by
  refine ⟨rfl, ?_, rfl⟩
  simp [daemonize, write_pidfile]

end QProject
